import Mathlib

/-!
Verification of the FeedbackAI backend (`server.js`): an in-memory feedback
store with filtering / sorting / pagination / statistics, plus helper
aggregation functions used by the mock AI assistant.

The JavaScript source is shallowly embedded:
* a feedback record becomes the structure `Feedback`; ISO-8601 timestamp
  strings are modelled by their integer time values (ISO-8601 strings compare
  lexicographically exactly as their time values compare numerically, and the
  sort comparator converts them with `new Date(...)` before comparing anyway);
* the module-level variables `feedback` / `feedbackIdCounter` become the
  structure `ServerState`;
* each route handler becomes a pure function from a state (plus the request
  data and an injected "now" timestamp) to a response and a new state;
* JSON request bodies for the update route become association lists
  `List (String × String)` (the route only ever stores the values of the
  string-valued keys `status` / `priority`);
* `String.prototype.trim` / `toLowerCase` are modelled by explicit functions
  on the character list (ASCII whitespace / case, which covers every string
  the development evaluates).
-/

/-- JavaScript whitespace test for `trim` (ASCII fragment). -/
def isJsSpace (c : Char) : Bool := c = ' ' || c = '\t' || c = '\n' || c = '\r'

/-- Model of `String.prototype.trim`: strip whitespace from both ends. -/
def jsTrim (s : String) : String :=
  ⟨((s.data.dropWhile isJsSpace).reverse.dropWhile isJsSpace).reverse⟩

/-- Model of `String.prototype.toLowerCase`. -/
def jsToLower (s : String) : String := ⟨s.data.map Char.toLower⟩

/-- Dynamic value of a record field, as read by `a[sort]` in the comparator:
a JavaScript number, a string, or `undefined` for an unknown field name. -/
inductive JsVal where
  | num (n : Int)
  | str (s : String)
  | undefinedValue
  deriving DecidableEq, Repr

/-- One feedback record, as built by `POST /api/feedback` (server.js:175-185).
`createdAt` / `updatedAt` hold the timestamp value of the stored ISO string. -/
structure Feedback where
  id : Nat
  title : String
  description : String
  type : String
  priority : String
  email : String
  status : String
  createdAt : Int
  updatedAt : Int
  deriving DecidableEq, Repr

/-- The mutable module state: `feedback` (array of records, newest first) and
`feedbackIdCounter` (server.js:14-15). -/
structure ServerState where
  records : List Feedback
  counter : Nat
  deriving DecidableEq, Repr

/-- Initial state: empty array, counter 1 (server.js:14-15). -/
def initState : ServerState := { records := [], counter := 1 }

/-- Allowed `type` values (server.js:45). -/
def typeEnum : List String := ["bug", "feature", "improvement", "other"]

/-- Allowed `priority` values (server.js:46). -/
def priorityEnum : List String := ["low", "medium", "high"]

/-- Allowed `status` values (validation sets `pending`; the spec's status
enum, also the stats buckets of server.js:389-391). -/
def statusEnum : List String := ["pending", "reviewed", "resolved"]

/-- Input body of `POST /api/feedback` (server.js:173). -/
structure CreateInput where
  title : String
  description : String
  type : String
  priority : String
  email : String
  deriving DecidableEq, Repr

/-- Modelled from the spec: the `isEmail` check of the external
`express-validator` library is not part of this repository; it is abstracted
as "contains an `@`".  No claim depends on the exact email syntax accepted —
the value is only normalised and stored. -/
def isEmail (s : String) : Bool := s.data.contains '@'

/-- The `validateFeedback` middleware chain (server.js:42-48): trimmed title
length 1-200, trimmed description length 1-2000, `type` and `priority` in
their enums, email format. -/
def validateFeedback (i : CreateInput) : Bool :=
  (1 ≤ (jsTrim i.title).length && (jsTrim i.title).length ≤ 200) &&
  (1 ≤ (jsTrim i.description).length && (jsTrim i.description).length ≤ 2000) &&
  typeEnum.contains i.type &&
  priorityEnum.contains i.priority &&
  isEmail i.email

/-- Result of `POST /api/feedback`. -/
inductive CreateResult where
  | invalid
  | created (f : Feedback)
  deriving DecidableEq, Repr

/-- `POST /api/feedback` (server.js:171-201): on valid input, build the new
record with the current counter value (then increment), trimmed
title/description, lowercased-then-trimmed email, status `pending`, both
timestamps `now`, and prepend it (`feedback.unshift(newFeedback)`).  On
validation failure the handler is never reached and the state is untouched. -/
def newFeedback (s : ServerState) (i : CreateInput) (now : Int) : Feedback :=
  { id := s.counter
    title := jsTrim i.title
    description := jsTrim i.description
    type := i.type
    priority := i.priority
    email := jsTrim (jsToLower i.email)
    status := "pending"
    createdAt := now
    updatedAt := now }

/-- The route wrapper: validation guards the handler; the record is prepended
and the counter incremented only on success. -/
def postFeedback (s : ServerState) (i : CreateInput) (now : Int) :
    CreateResult × ServerState :=
  if validateFeedback i then
    (.created (newFeedback s i now),
     { records := newFeedback s i now :: s.records, counter := s.counter + 1 })
  else
    (.invalid, s)

/-! ## Query engine: `GET /api/feedback` (server.js:79-142) -/

/-- Query parameters of `GET /api/feedback` after applying the destructuring
defaults of server.js:81 (`page = 1`, `limit = 10`, `sort = 'createdAt'`,
`order = 'desc'`).  A filter parameter is `none` when absent from the query
string. -/
structure QueryParams where
  status : Option String
  type : Option String
  priority : Option String
  page : Nat
  limit : Nat
  sort : String
  order : String
  deriving DecidableEq, Repr

/-- One conditional filter stage, the common shape of server.js:86-94:
`if (v && v !== 'all') filtered = filtered.filter(item => get item === v)`.
A missing parameter (`none`) and the empty string are JavaScript-falsy, so
they skip the stage, as does the sentinel `"all"`. -/
def filterStage (v : Option String) (get : Feedback → String) (l : List Feedback) :
    List Feedback :=
  match v with
  | none => l
  | some v => if v ≠ "" ∧ v ≠ "all" then l.filter (fun r => get r == v) else l

/-- The three filter stages of server.js:86-94, applied in source order:
status, then type, then priority. -/
def applyFilters (q : QueryParams) (l : List Feedback) : List Feedback :=
  filterStage q.priority (·.priority)
    (filterStage q.type (·.type)
      (filterStage q.status (·.status) l))

/-- Predicate form of one filter stage: does the record pass it? -/
def stagePass (v : Option String) (get : Feedback → String) (r : Feedback) : Bool :=
  match v with
  | none => true
  | some v => if v ≠ "" ∧ v ≠ "all" then get r == v else true

/-- Conjunction of the three stage predicates: a record is in the filtered
set iff it passes the status, type and priority stages. -/
def matchesFilters (q : QueryParams) (r : Feedback) : Bool :=
  stagePass q.status (·.status) r &&
  (stagePass q.type (·.type) r && stagePass q.priority (·.priority) r)

/-- `a[sort]`: dynamic field access used by the comparator (server.js:98-99).
Unknown field names read `undefined`. -/
def fieldOf : String → Feedback → JsVal
  | "id", r => .num r.id
  | "title", r => .str r.title
  | "description", r => .str r.description
  | "type", r => .str r.type
  | "priority", r => .str r.priority
  | "email", r => .str r.email
  | "status", r => .str r.status
  | "createdAt", r => .num r.createdAt
  | "updatedAt", r => .num r.updatedAt
  | _, _ => .undefinedValue

/-- The JavaScript `>` comparison as used on two values of the same field:
numeric on numbers (this includes the `new Date(...)` branch of
server.js:101-104, since a date compares by its time value), lexicographic on
strings, and false whenever `undefined` is involved. -/
def jsGt : JsVal → JsVal → Bool
  | .num x, .num y => y < x
  | .str x, .str y => y < x
  | _, _ => false

/-- The sort comparator of server.js:97-110.  Note it never returns 0: for
`order = 'desc'` it returns `bVal > aVal ? 1 : -1`, otherwise
`aVal > bVal ? 1 : -1`, so two records with equal sort keys compare `-1` in
both argument orders. -/
def sortCompare (sort order : String) (a b : Feedback) : Int :=
  let aVal := fieldOf sort a
  let bVal := fieldOf sort b
  if order = "desc" then (if jsGt bVal aVal then 1 else -1)
  else (if jsGt aVal bVal then 1 else -1)

/-- Insertion step of the runtime sort: place `x` before the first element of
the (already processed) prefix that it compares strictly below. -/
def jsInsert (cmp : α → α → Int) (x : α) : List α → List α
  | [] => [x]
  | y :: ys => if cmp x y < 0 then x :: y :: ys else y :: jsInsert cmp x ys

/-- Model of `Array.prototype.sort` with the comparator above.  For a
consistent comparison function this agrees with every conforming
implementation.  The comparator of server.js:97-110 never returns 0, so on
lists with tied keys it is *not* consistent and ECMAScript leaves the result
order implementation-defined; this model reproduces the placement used by the
binary insertion sort of the V8 runtime the server runs on (an element is
inserted before the elements it ties with, processing the array left to
right). -/
def jsSort (cmp : α → α → Int) (l : List α) : List α :=
  l.foldl (fun acc x => jsInsert cmp x acc) []

/-- `Math.ceil(a / b)` for natural `a` and positive natural `b`
(server.js:129). -/
def ceilDiv (a b : Nat) : Nat := (a + b - 1) / b

/-- The `pagination` object of the list response (server.js:127-132). -/
structure PaginationInfo where
  currentPage : Nat
  totalPages : Nat
  totalItems : Nat
  itemsPerPage : Nat
  deriving DecidableEq, Repr

/-- The inline `stats` object of the list response (server.js:117-122),
computed from the *full* store. -/
structure ListStats where
  total : Nat
  pending : Nat
  reviewed : Nat
  resolved : Nat
  deriving DecidableEq, Repr

/-- Response of `GET /api/feedback`. -/
structure ListResponse where
  data : List Feedback
  pagination : PaginationInfo
  stats : ListStats
  deriving DecidableEq, Repr

/-- `GET /api/feedback` (server.js:79-142): copy the store, filter, sort,
slice `[(page-1)*limit, (page-1)*limit + limit)`, and report pagination data
from the filtered length and stats from the whole store. -/
def listFeedback (s : ServerState) (q : QueryParams) : ListResponse :=
  let sorted := jsSort (sortCompare q.sort q.order) (applyFilters q s.records)
  let startIndex := (q.page - 1) * q.limit
  { data := (sorted.drop startIndex).take q.limit
    pagination :=
      { currentPage := q.page
        totalPages := ceilDiv sorted.length q.limit
        totalItems := sorted.length
        itemsPerPage := q.limit }
    stats :=
      { total := s.records.length
        pending := (s.records.filter (fun f => f.status == "pending")).length
        reviewed := (s.records.filter (fun f => f.status == "reviewed")).length
        resolved := (s.records.filter (fun f => f.status == "resolved")).length } }

/-! ## `PUT /api/feedback/:id` (server.js:204-250) -/

/-- The allowed mutable keys (server.js:216). -/
def allowedUpdates : List String := ["status", "priority"]

/-- `{...feedback[feedbackIndex], ...updates, updatedAt: now}`
(server.js:232-236): apply the recognised keys in order (later keys win) and
refresh `updatedAt`.  `updates` is always a sublist of `allowedUpdates` keys,
so only `status` / `priority` can be assigned. -/
def applyUpdates (r : Feedback) (updates : List (String × String)) (now : Int) :
    Feedback :=
  let r' := updates.foldl
    (fun acc kv =>
      if kv.1 = "status" then { acc with status := kv.2 }
      else if kv.1 = "priority" then { acc with priority := kv.2 }
      else acc)
    r
  { r' with updatedAt := now }

/-- Replace the record at the first index whose `id` matches
(`findIndex` + assignment, server.js:207,232): returns the updated record and
the new array, or `none` when `findIndex` gives `-1`. -/
def updateRecords (id : Nat) (updates : List (String × String)) (now : Int) :
    List Feedback → Option (Feedback × List Feedback)
  | [] => none
  | r :: rs =>
    if r.id = id then
      let r' := applyUpdates r updates now
      some (r', r' :: rs)
    else
      match updateRecords id updates now rs with
      | none => none
      | some (f, rs') => some (f, r :: rs')

/-- Result of `PUT /api/feedback/:id`. -/
inductive PutResult where
  | notFound
  | noValidFields
  | updated (f : Feedback)
  deriving DecidableEq, Repr

/-- `PUT /api/feedback/:id` (server.js:204-250): 404 when the id is not in
the array; otherwise keep only the `allowedUpdates` keys of the body, reject
with 400 (`No valid updates provided`) when none remain, else replace the
record in place. -/
def putFeedback (s : ServerState) (id : Nat) (body : List (String × String))
    (now : Int) : PutResult × ServerState :=
  let updates := body.filter (fun kv => allowedUpdates.contains kv.1)
  match updateRecords id updates now s.records with
  | none => (.notFound, s)
  | some (f, newRecords) =>
    if updates.isEmpty then (.noValidFields, s)
    else (.updated f, { s with records := newRecords })

/-! ## `DELETE /api/feedback/:id` (server.js:253-279) -/

/-- Remove the record at the first index whose `id` matches
(`findIndex` + `splice`, server.js:256,265): returns the removed record and
the remaining array, or `none` when `findIndex` gives `-1`. -/
def removeRecord (id : Nat) :
    List Feedback → Option (Feedback × List Feedback)
  | [] => none
  | r :: rs =>
    if r.id = id then some (r, rs)
    else
      match removeRecord id rs with
      | none => none
      | some (f, rs') => some (f, r :: rs')

/-- Result of `DELETE /api/feedback/:id`. -/
inductive DeleteResult where
  | notFound
  | deleted (f : Feedback)
  deriving DecidableEq, Repr

/-- `DELETE /api/feedback/:id` (server.js:253-279). -/
def deleteFeedback (s : ServerState) (id : Nat) : DeleteResult × ServerState :=
  match removeRecord id s.records with
  | none => (.notFound, s)
  | some (f, rs) => (.deleted f, { s with records := rs })

/-! ## Stats helpers (server.js:385-449) -/

/-- `byStatus` buckets of `getFeedbackStats`. -/
structure ByStatus where
  pending : Nat
  reviewed : Nat
  resolved : Nat
  deriving DecidableEq, Repr

/-- `byType` buckets of `getFeedbackStats`. -/
structure ByType where
  bug : Nat
  feature : Nat
  improvement : Nat
  other : Nat
  deriving DecidableEq, Repr

/-- `byPriority` buckets of `getFeedbackStats`. -/
structure ByPriority where
  low : Nat
  medium : Nat
  high : Nat
  deriving DecidableEq, Repr

/-- Result of `getFeedbackStats`. -/
structure FeedbackStats where
  total : Nat
  byStatus : ByStatus
  byType : ByType
  byPriority : ByPriority
  deriving DecidableEq, Repr

/-- `getFeedbackStats` (server.js:385-406), parameterised by the store
contents it closes over. -/
def getFeedbackStats (records : List Feedback) : FeedbackStats :=
  { total := records.length
    byStatus :=
      { pending := (records.filter (fun f => f.status == "pending")).length
        reviewed := (records.filter (fun f => f.status == "reviewed")).length
        resolved := (records.filter (fun f => f.status == "resolved")).length }
    byType :=
      { bug := (records.filter (fun f => f.type == "bug")).length
        feature := (records.filter (fun f => f.type == "feature")).length
        improvement := (records.filter (fun f => f.type == "improvement")).length
        other := (records.filter (fun f => f.type == "other")).length }
    byPriority :=
      { low := (records.filter (fun f => f.priority == "low")).length
        medium := (records.filter (fun f => f.priority == "medium")).length
        high := (records.filter (fun f => f.priority == "high")).length } }

/-- The keys of the `typeCounts` object built by the `reduce` of
server.js:441-444: the distinct `type` values of the store, in order of
first occurrence (JavaScript objects enumerate string keys in insertion
order). -/
def typeKeys (records : List Feedback) : List String :=
  records.foldl (fun acc r => if acc.contains r.type then acc else acc ++ [r.type]) []

/-- `typeCounts[t]` of server.js:441-444, with 0 for an absent key (the
`undefined` read of an absent key loses every `>` comparison against a real
count, exactly as 0 does, since every real count is at least 1). -/
def countType (records : List Feedback) (t : String) : Nat :=
  (records.filter (fun r => r.type == t)).length

/-- `getMostCommonType` (server.js:440-449): fold the keys of `typeCounts`
with `(a, b) => typeCounts[a] > typeCounts[b] ? a : b`, starting from
`'feature'`. -/
def getMostCommonType (records : List Feedback) : String :=
  (typeKeys records).foldl
    (fun a b => if countType records a > countType records b then a else b)
    "feature"

/-! ## The operation state machine (create / update / delete) -/

/-- One mutating public operation, with its injected wall-clock instant. -/
inductive Op where
  | create (i : CreateInput) (now : Int)
  | update (id : Nat) (body : List (String × String)) (now : Int)
  | delete (id : Nat)
  deriving DecidableEq, Repr

/-- State transition of one operation (the response is discarded). -/
def stepOp (s : ServerState) : Op → ServerState
  | .create i now => (postFeedback s i now).2
  | .update id body now => (putFeedback s id body now).2
  | .delete id => (deleteFeedback s id).2

/-- States reachable from the fresh store by any sequence of public
operations. -/
inductive Reachable : ServerState → Prop
  | init : Reachable initState
  | next {s : ServerState} (op : Op) (h : Reachable s) : Reachable (stepOp s op)

/-- An operation whose update body only carries enum values for the mutable
keys: `status` values from `statusEnum` and `priority` values from
`priorityEnum`.  Create and delete operations are unrestricted (creation is
validated by the server itself). -/
def goodOp : Op → Prop
  | .update _ body _ =>
      ∀ kv ∈ body, (kv.1 = "status" → kv.2 ∈ statusEnum) ∧
        (kv.1 = "priority" → kv.2 ∈ priorityEnum)
  | _ => True

/-- States reachable from the fresh store using only `goodOp` operations. -/
inductive ReachableGood : ServerState → Prop
  | init : ReachableGood initState
  | next {s : ServerState} (op : Op) (h : ReachableGood s) (hg : goodOp op) :
      ReachableGood (stepOp s op)

/-- All three enum fields of a record are in their enum sets. -/
def enumOk (r : Feedback) : Prop :=
  r.status ∈ statusEnum ∧ r.type ∈ typeEnum ∧ r.priority ∈ priorityEnum

/-! ## Concrete data used by counterexamples and witnesses -/

/-- A create body that passes validation (the README's example request). -/
def sampleInput : CreateInput :=
  { title := "Login broken"
    description := "Click does nothing"
    type := "bug"
    priority := "high"
    email := "USER@Example.com" }

/-- Build a record with fixed filler text, varying the fields the claims
care about. -/
def mkRec (id : Nat) (ty pr st : String) (c : Int) : Feedback :=
  { id := id, title := "t", description := "d", type := ty, priority := pr
    email := "a@b.com", status := st, createdAt := c, updatedAt := c }

/-- State reached by one valid create followed by
`PUT /api/feedback/1 {status: "banana"}` — the update route never validates
the values of the allowed keys. -/
def sBad : ServerState :=
  stepOp (stepOp initState (.create sampleInput 100)) (.update 1 [("status", "banana")] 200)

lemma sBad_reachable : Reachable sBad :=
  Reachable.next (.update 1 [("status", "banana")] 200)
    (Reachable.next (.create sampleInput 100) Reachable.init)

/-- State reached by one valid create followed by an update whose values stay
inside the enums. -/
def sGood : ServerState :=
  stepOp (stepOp initState (.create sampleInput 100)) (.update 1 [("status", "resolved")] 200)

lemma sGood_reachableGood : ReachableGood sGood :=
  ReachableGood.next (.update 1 [("status", "resolved")] 200)
    (ReachableGood.next (.create sampleInput 100) ReachableGood.init (by trivial))
    (by
      intro kv hkv
      simp only [List.mem_singleton] at hkv
      subst hkv
      exact ⟨fun _ => by decide, fun h => by simp at h⟩)

def rBug : Feedback := mkRec 1 "bug" "low" "pending" 100
def rImpr : Feedback := mkRec 2 "improvement" "low" "pending" 100
def tieA : Feedback := mkRec 1 "bug" "low" "pending" 100
def tieB : Feedback := mkRec 2 "bug" "low" "pending" 100

/-! ## C10 -/

/-- C10: the `stats` object of the list response is computed from the whole
store only — two requests against the same store report identical stats
whatever their filters (and paging/sorting) are. -/
theorem C10_list_stats_filter_independent (s : ServerState) (q q' : QueryParams) :
    (listFeedback s q).stats = (listFeedback s q').stats := rfl

/-! ## Counterexamples for the corrected claims -/

/-- C1 (counterexample): two distinct records with equal `createdAt` compare
`-1` in both argument orders (the comparator is not a consistent comparison
function), and the modelled runtime sort moves the later record in front of
the earlier one instead of preserving the pre-sort order. -/
theorem C1_counterexample :
    sortCompare "createdAt" "desc" tieA tieB = -1 ∧
    sortCompare "createdAt" "desc" tieB tieA = -1 ∧
    tieA.createdAt = tieB.createdAt ∧ tieA ≠ tieB ∧
    jsSort (sortCompare "createdAt" "desc") [tieA, tieB] = [tieB, tieA] := by
  decide

/-- C3 (counterexample): `sBad` is reachable by public operations and holds a
record whose status, `banana`, is outside the status enum. -/
theorem C3_counterexample :
    Reachable sBad ∧ ∃ r ∈ sBad.records, r.status ∉ statusEnum :=
  ⟨sBad_reachable, by decide⟩

/-- C4 (counterexample): in the reachable state `sBad` the three `byStatus`
buckets sum to 0 while `total` is 1. -/
theorem C4_counterexample :
    Reachable sBad ∧
    (getFeedbackStats sBad.records).byStatus.pending +
        (getFeedbackStats sBad.records).byStatus.reviewed +
        (getFeedbackStats sBad.records).byStatus.resolved ≠
      (getFeedbackStats sBad.records).total :=
  ⟨sBad_reachable, by decide⟩

/-- C8 (counterexample): the supplied filter value `""` is JavaScript-falsy,
so the stage is skipped: a record whose status is not `""` is still returned,
contradicting the by-equality reading for every supplied value. -/
theorem C8_counterexample :
    applyFilters
        { status := some "", type := none, priority := none, page := 1
          limit := 10, sort := "createdAt", order := "desc" } [rBug] = [rBug] ∧
    rBug.status ≠ "" := by
  decide

/-- C9 (counterexample): with one `bug` record (encountered first) and one
`improvement` record tied at count 1, `getMostCommonType` returns
`improvement`, the *last*-encountered tied type, not the first. -/
theorem C9_counterexample :
    typeKeys [rBug, rImpr] = ["bug", "improvement"] ∧
    countType [rBug, rImpr] "bug" = countType [rBug, rImpr] "improvement" ∧
    getMostCommonType [rBug, rImpr] = "improvement" ∧
    ("improvement" : String) ≠ "bug" := by
  decide

/-! ## C2: update with no recognised key -/

lemma updateRecords_isSome_of_mem {id : Nat} {u : List (String × String)}
    {now : Int} {l : List Feedback} (h : ∃ r ∈ l, r.id = id) :
    ∃ p, updateRecords id u now l = some p := by
  induction l with
  | nil => simp at h
  | cons r rs ih =>
    by_cases hr : r.id = id
    · exact ⟨(applyUpdates r u now, applyUpdates r u now :: rs),
        by simp [updateRecords, hr]⟩
    · obtain ⟨x, hx, hxid⟩ := h
      rcases List.mem_cons.mp hx with rfl | hx'
      · exact absurd hxid hr
      · obtain ⟨p, hp⟩ := ih ⟨x, hx', hxid⟩
        exact ⟨(p.1, r :: p.2), by simp [updateRecords, hr, hp]⟩

/-- C2: when the body of `PUT /api/feedback/:id` carries no key from the
allowed mutable set, the route answers `noValidFields` (400) and the state —
so in particular the stored record, every field of it including `updatedAt` —
is exactly unchanged, even though the target id exists. -/
theorem C2_update_no_valid_fields_atomic (s : ServerState) (id : Nat)
    (body : List (String × String)) (now : Int)
    (hbody : ∀ kv ∈ body, kv.1 ∉ allowedUpdates)
    (hex : ∃ r ∈ s.records, r.id = id) :
    putFeedback s id body now = (.noValidFields, s) := by
  have hfilter : body.filter (fun kv => allowedUpdates.contains kv.1) = [] := by
    rw [List.filter_eq_nil_iff]
    intro kv hkv
    simpa using hbody kv hkv
  obtain ⟨⟨f, rs'⟩, hp⟩ :=
    @updateRecords_isSome_of_mem id [] now s.records hex
  simp only [putFeedback]
  rw [hfilter, hp]
  simp

/-- C2 (witness): a store holding one record with id 1, updated with the body
`{title: "x"}`. -/
theorem C2_witness :
    (∀ kv ∈ [(("title" : String), ("x" : String))], kv.1 ∉ allowedUpdates) ∧
    (∃ r ∈ (ServerState.mk [rBug] 2).records, r.id = 1) ∧
    putFeedback (ServerState.mk [rBug] 2) 1 [("title", "x")] 300 =
      (.noValidFields, ServerState.mk [rBug] 2) :=
  ⟨by decide, by decide,
    C2_update_no_valid_fields_atomic (ServerState.mk [rBug] 2) 1
      [("title", "x")] 300 (by decide) (by decide)⟩

/-! ## C6: update `{priority: "high"}` changes only `priority`/`updatedAt` -/

lemma updateRecords_append {id : Nat} (u : List (String × String)) (now : Int)
    (l₁ rest : List Feedback) (h : ∀ x ∈ l₁, x.id ≠ id) :
    updateRecords id u now (l₁ ++ rest) =
      (updateRecords id u now rest).map (fun p => (p.1, l₁ ++ p.2)) := by
  induction l₁ with
  | nil =>
    simp only [List.nil_append]
    cases updateRecords id u now rest <;> simp
  | cons x xs ih =>
    have hx : x.id ≠ id := h x (by simp)
    have ih' := ih (fun y hy => h y (by simp [hy]))
    cases h' : updateRecords id u now rest with
    | none =>
      rw [h'] at ih'
      simp only [Option.map] at ih'
      simp [updateRecords, if_neg hx, ih']
    | some p =>
      rw [h'] at ih'
      simp only [Option.map] at ih'
      simp [updateRecords, if_neg hx, ih']

/-- C6: updating an existing record with body `{priority: "high"}` succeeds,
replaces exactly that record by the same record with `priority := "high"` and
`updatedAt := now`, and leaves every other record, the order, and the counter
unchanged. -/
theorem C6_update_priority_frame (s : ServerState) (now : Int)
    (l₁ l₂ : List Feedback) (r : Feedback)
    (hs : s.records = l₁ ++ r :: l₂)
    (hl : ∀ x ∈ l₁, x.id ≠ r.id) :
    putFeedback s r.id [("priority", "high")] now =
      (.updated { r with priority := "high", updatedAt := now },
       { records := l₁ ++ { r with priority := "high", updatedAt := now } :: l₂
         counter := s.counter }) := by
  have happ : applyUpdates r [("priority", "high")] now =
      { r with priority := "high", updatedAt := now } := rfl
  have hupd : updateRecords r.id [("priority", "high")] now (l₁ ++ r :: l₂) =
      some ({ r with priority := "high", updatedAt := now },
        l₁ ++ { r with priority := "high", updatedAt := now } :: l₂) := by
    rw [updateRecords_append _ _ _ _ hl]
    simp [updateRecords, happ]
  have hfilter : ([(("priority" : String), ("high" : String))]).filter
      (fun kv => allowedUpdates.contains kv.1) = [("priority", "high")] := by
    decide
  simp only [putFeedback]
  rw [hfilter, hs, hupd]
  simp

/-- C6 (witness): a two-record store, updating the second record. -/
theorem C6_witness :
    putFeedback (ServerState.mk [rImpr, rBug] 3) rBug.id [("priority", "high")] 500 =
      (.updated { rBug with priority := "high", updatedAt := 500 },
       { records := [rImpr, { rBug with priority := "high", updatedAt := 500 }]
         counter := 3 }) :=
  C6_update_priority_frame (ServerState.mk [rImpr, rBug] 3) 500 [rImpr] [] rBug
    rfl (by decide)

/-! ## Permutation facts about the modelled sort -/

lemma jsInsert_perm (cmp : α → α → Int) (x : α) (l : List α) :
    List.Perm (jsInsert cmp x l) (x :: l) := by
  induction l with
  | nil => exact List.Perm.refl _
  | cons y ys ih =>
    by_cases h : cmp x y < 0
    · simp [jsInsert, h]
    · simp only [jsInsert, if_neg h]
      exact (ih.cons y).trans (List.Perm.swap x y ys)

lemma jsSortAux_perm (cmp : α → α → Int) (l acc : List α) :
    List.Perm (l.foldl (fun a x => jsInsert cmp x a) acc) (l ++ acc) := by
  induction l generalizing acc with
  | nil => simp
  | cons x xs ih =>
    simp only [List.foldl_cons, List.cons_append]
    exact ((ih _).trans (List.Perm.append_left xs (jsInsert_perm cmp x acc))).trans
      List.perm_middle

lemma jsSort_perm (cmp : α → α → Int) (l : List α) :
    List.Perm (jsSort cmp l) l := by
  simpa using jsSortAux_perm cmp l []

lemma jsSort_length (cmp : α → α → Int) (l : List α) :
    (jsSort cmp l).length = l.length :=
  (jsSort_perm cmp l).length_eq

/-! ## C7: pagination -/

/-- C7: for every store, filter combination, `page ≥ 1` and `limit ≥ 1`, the
list route returns exactly the slice `[(page-1)*limit, (page-1)*limit+limit)`
of the sorted filtered set — of length `min limit (totalItems - startIndex)`,
and empty (not an error) once `startIndex` reaches the filtered count — and
reports `totalItems` as the full pre-pagination filtered count with
`totalPages * limit` the least multiple of `limit` reaching `totalItems`
(i.e. `totalPages = ceil(totalItems / limit)`). -/
theorem C7_pagination (s : ServerState) (q : QueryParams)
    (hp : 1 ≤ q.page) (hl : 1 ≤ q.limit) :
    (listFeedback s q).data =
      ((jsSort (sortCompare q.sort q.order) (applyFilters q s.records)).drop
        ((q.page - 1) * q.limit)).take q.limit ∧
    (listFeedback s q).data.length =
      min q.limit ((applyFilters q s.records).length - (q.page - 1) * q.limit) ∧
    ((applyFilters q s.records).length ≤ (q.page - 1) * q.limit →
      (listFeedback s q).data = []) ∧
    (listFeedback s q).pagination.totalItems = (applyFilters q s.records).length ∧
    (applyFilters q s.records).length ≤
      (listFeedback s q).pagination.totalPages * q.limit ∧
    (listFeedback s q).pagination.totalPages * q.limit <
      (applyFilters q s.records).length + q.limit := by
  have hlen : (jsSort (sortCompare q.sort q.order) (applyFilters q s.records)).length
      = (applyFilters q s.records).length := jsSort_length _ _
  refine ⟨rfl, ?_, ?_, ?_, ?_, ?_⟩
  · simp [listFeedback, hlen]
  · intro h
    have hd : (jsSort (sortCompare q.sort q.order) (applyFilters q s.records)).drop
        ((q.page - 1) * q.limit) = [] :=
      List.drop_eq_nil_of_le (by omega)
    simp [listFeedback, hd]
  · simp [listFeedback, hlen]
  · have h3 : (applyFilters q s.records).length + q.limit - 1 <
        (((applyFilters q s.records).length + q.limit - 1) / q.limit + 1) * q.limit :=
      (Nat.div_lt_iff_lt_mul (by omega)).mp (Nat.lt_succ_self _)
    rw [Nat.succ_mul] at h3
    simp only [listFeedback, ceilDiv, hlen]
    omega
  · have h4 := Nat.div_mul_le_self ((applyFilters q s.records).length + q.limit - 1) q.limit
    simp only [listFeedback, ceilDiv, hlen]
    omega

/-- C7 (witness): a three-record store queried at page 2 with page size 2. -/
theorem C7_witness :
    (listFeedback (ServerState.mk [rBug, rImpr, tieB] 4)
        { status := none, type := none, priority := none, page := 2, limit := 2
          sort := "createdAt", order := "desc" }).pagination.totalItems = 3 ∧
    (listFeedback (ServerState.mk [rBug, rImpr, tieB] 4)
        { status := none, type := none, priority := none, page := 2, limit := 2
          sort := "createdAt", order := "desc" }).data.length = min 2 (3 - 2) :=
  ⟨((C7_pagination (ServerState.mk [rBug, rImpr, tieB] 4)
      { status := none, type := none, priority := none, page := 2, limit := 2
        sort := "createdAt", order := "desc" } (by decide) (by decide)).2.2.2.1).trans
      (by decide),
   ((C7_pagination (ServerState.mk [rBug, rImpr, tieB] 4)
      { status := none, type := none, priority := none, page := 2, limit := 2
        sort := "createdAt", order := "desc" } (by decide) (by decide)).2.1).trans
      (by decide)⟩

/-! ## C8: filtering -/

lemma filterStage_eq_filter (v : Option String) (get : Feedback → String)
    (l : List Feedback) : filterStage v get l = l.filter (stagePass v get) := by
  cases v with
  | none =>
    simp only [filterStage]
    symm
    rw [List.filter_eq_self]
    intro a _
    rfl
  | some s =>
    by_cases h : s ≠ "" ∧ s ≠ "all"
    · simp only [filterStage, if_pos h]
      apply List.filter_congr
      intro x _
      simp [stagePass, h]
    · simp only [filterStage, if_neg h]
      symm
      rw [List.filter_eq_self]
      intro a _
      simp [stagePass, h]

/-- C8 (amended): the filtered set is exactly the records passing the
conjunction (logical AND) of the three stage predicates, where a stage
constrains its field by equality when its parameter is present, nonempty and
not the sentinel `"all"`, and imposes no constraint otherwise (absent and
empty values are JavaScript-falsy, `"all"` is checked explicitly). -/
theorem C8_filters_conjunctive (q : QueryParams) (l : List Feedback) :
    applyFilters q l = l.filter (matchesFilters q) := by
  simp only [applyFilters, filterStage_eq_filter, List.filter_filter]
  apply List.filter_congr
  intro r _
  cases hA : stagePass q.status (·.status) r <;>
    cases hB : stagePass q.type (·.type) r <;>
      cases hC : stagePass q.priority (·.priority) r <;>
        simp [matchesFilters, hA, hB, hC]

/-! ## Enum invariant under good operations (C3/C4 machinery) -/

lemma foldlUpdates_enumOk (u : List (String × String)) (r : Feedback)
    (hr : enumOk r)
    (hu : ∀ kv ∈ u, (kv.1 = "status" → kv.2 ∈ statusEnum) ∧
      (kv.1 = "priority" → kv.2 ∈ priorityEnum)) :
    enumOk (u.foldl
      (fun acc kv =>
        if kv.1 = "status" then { acc with status := kv.2 }
        else if kv.1 = "priority" then { acc with priority := kv.2 }
        else acc) r) := by
  induction u generalizing r with
  | nil => exact hr
  | cons kv rest ih =>
    have hkv := hu kv (by simp)
    have hrest := fun x hx => hu x (List.mem_cons_of_mem _ hx)
    simp only [List.foldl_cons]
    by_cases h1 : kv.1 = "status"
    · simp only [if_pos h1]
      exact ih _ ⟨hkv.1 h1, hr.2.1, hr.2.2⟩ hrest
    · by_cases h2 : kv.1 = "priority"
      · simp only [if_neg h1, if_pos h2]
        exact ih _ ⟨hr.1, hr.2.1, hkv.2 h2⟩ hrest
      · simp only [if_neg h1, if_neg h2]
        exact ih _ hr hrest

lemma applyUpdates_enumOk {r : Feedback} {u : List (String × String)} {now : Int}
    (hr : enumOk r)
    (hu : ∀ kv ∈ u, (kv.1 = "status" → kv.2 ∈ statusEnum) ∧
      (kv.1 = "priority" → kv.2 ∈ priorityEnum)) :
    enumOk (applyUpdates r u now) := by
  have h := foldlUpdates_enumOk u r hr hu
  exact ⟨h.1, h.2.1, h.2.2⟩

lemma updateRecords_enumOk {id : Nat} {u : List (String × String)} {now : Int}
    {l : List Feedback} {f : Feedback} {l' : List Feedback}
    (hl : ∀ r ∈ l, enumOk r)
    (hu : ∀ kv ∈ u, (kv.1 = "status" → kv.2 ∈ statusEnum) ∧
      (kv.1 = "priority" → kv.2 ∈ priorityEnum))
    (h : updateRecords id u now l = some (f, l')) :
    ∀ r ∈ l', enumOk r := by
  induction l generalizing l' with
  | nil => simp [updateRecords] at h
  | cons r rs ih =>
    by_cases hr : r.id = id
    · rw [updateRecords, if_pos hr] at h
      obtain ⟨rfl, rfl⟩ : f = applyUpdates r u now ∧ l' = applyUpdates r u now :: rs := by
        simpa [eq_comm] using h
      intro x hx
      rcases List.mem_cons.mp hx with rfl | hx'
      · exact applyUpdates_enumOk (hl r (by simp)) hu
      · exact hl x (List.mem_cons_of_mem _ hx')
    · rw [updateRecords, if_neg hr] at h
      cases h' : updateRecords id u now rs with
      | none => rw [h'] at h; simp at h
      | some p =>
        rw [h'] at h
        obtain ⟨rfl, rfl⟩ : f = p.1 ∧ l' = r :: p.2 := by
          cases p; simpa [eq_comm] using h
        intro x hx
        rcases List.mem_cons.mp hx with rfl | hx'
        · exact hl x (by simp)
        · exact ih (fun y hy => hl y (List.mem_cons_of_mem _ hy))
            (by cases p; exact h') x hx'

lemma removeRecord_subset {id : Nat} {l : List Feedback} {f : Feedback}
    {l' : List Feedback} (h : removeRecord id l = some (f, l')) :
    ∀ r ∈ l', r ∈ l := by
  induction l generalizing l' with
  | nil => simp [removeRecord] at h
  | cons r rs ih =>
    by_cases hr : r.id = id
    · rw [removeRecord, if_pos hr] at h
      obtain ⟨rfl, rfl⟩ : f = r ∧ l' = rs := by simpa [eq_comm] using h
      exact fun x hx => List.mem_cons_of_mem _ hx
    · rw [removeRecord, if_neg hr] at h
      cases h' : removeRecord id rs with
      | none => rw [h'] at h; simp at h
      | some p =>
        rw [h'] at h
        obtain ⟨rfl, rfl⟩ : f = p.1 ∧ l' = r :: p.2 := by
          cases p; simpa [eq_comm] using h
        intro x hx
        rcases List.mem_cons.mp hx with rfl | hx'
        · simp
        · exact List.mem_cons_of_mem _ (ih (by cases p; exact h') x hx')

lemma postFeedback_state (s : ServerState) (i : CreateInput) (now : Int) :
    (postFeedback s i now).2 =
      if validateFeedback i then
        { records := newFeedback s i now :: s.records, counter := s.counter + 1 }
      else s := by
  unfold postFeedback
  split <;> rfl

lemma putFeedback_state (s : ServerState) (id : Nat)
    (body : List (String × String)) (now : Int) :
    (putFeedback s id body now).2 = s ∨
    ∃ f l', updateRecords id (body.filter (fun kv => allowedUpdates.contains kv.1))
        now s.records = some (f, l') ∧
      (putFeedback s id body now).2 = { records := l', counter := s.counter } := by
  simp only [putFeedback]
  split
  · left; rfl
  · split
    · left; rfl
    · rename_i f l' heq hne
      right
      exact ⟨f, l', heq, rfl⟩

lemma deleteFeedback_state (s : ServerState) (id : Nat) :
    (deleteFeedback s id).2 = s ∨
    ∃ f l', removeRecord id s.records = some (f, l') ∧
      (deleteFeedback s id).2 = { records := l', counter := s.counter } := by
  simp only [deleteFeedback]
  split
  · left; rfl
  · rename_i f l' heq
    right
    exact ⟨f, l', heq, rfl⟩

lemma newFeedback_enumOk (s : ServerState) (i : CreateInput) (now : Int)
    (hv : validateFeedback i = true) : enumOk (newFeedback s i now) := by
  simp only [validateFeedback, Bool.and_eq_true] at hv
  obtain ⟨⟨⟨⟨-, -⟩, hty⟩, hpr⟩, -⟩ := hv
  refine ⟨by simp [newFeedback, statusEnum], ?_, ?_⟩
  · simpa [newFeedback] using hty
  · simpa [newFeedback] using hpr

lemma reachableGood_enumOk {s : ServerState} (h : ReachableGood s) :
    ∀ r ∈ s.records, enumOk r := by
  induction h with
  | init => simp [initState]
  | next op hre hg ih =>
    rename_i s'
    cases op with
    | create i now =>
      simp only [stepOp]
      rw [postFeedback_state]
      by_cases hv : validateFeedback i
      · rw [if_pos hv]
        intro r hr
        rcases List.mem_cons.mp hr with rfl | hr'
        · exact newFeedback_enumOk _ _ _ hv
        · exact ih r hr'
      · rw [if_neg hv]
        exact ih
    | update id body now =>
      simp only [stepOp]
      rcases putFeedback_state s' id body now with hsame | ⟨f, l', hupd, hst⟩
      · rw [hsame]; exact ih
      · rw [hst]
        exact updateRecords_enumOk ih
          (fun kv hkv => hg kv (List.mem_of_mem_filter hkv)) hupd
    | delete id =>
      simp only [stepOp]
      rcases deleteFeedback_state s' id with hsame | ⟨f, l', hdel, hst⟩
      · rw [hsame]; exact ih
      · rw [hst]
        exact fun r hr => ih r (removeRecord_subset hdel r hr)

/-- C3 (amended): along any operation sequence whose update bodies only carry
enum values for the mutable keys — the update route itself never validates
them — every record's status, priority and type stay inside their enum sets
(creation is validated by the server, so create and delete need no side
condition). -/
theorem C3_enum_invariant_good (s : ServerState) (h : ReachableGood s) :
    ∀ r ∈ s.records,
      r.status ∈ statusEnum ∧ r.priority ∈ priorityEnum ∧ r.type ∈ typeEnum :=
  fun r hr =>
    ⟨(reachableGood_enumOk h r hr).1, (reachableGood_enumOk h r hr).2.2,
      (reachableGood_enumOk h r hr).2.1⟩

/-- C3 (witness): the concrete good state `sGood`. -/
theorem C3_witness :
    ReachableGood sGood ∧
    ∀ r ∈ sGood.records,
      r.status ∈ statusEnum ∧ r.priority ∈ priorityEnum ∧ r.type ∈ typeEnum :=
  ⟨sGood_reachableGood, C3_enum_invariant_good sGood sGood_reachableGood⟩

/-! ## C4: stats sums -/

lemma length_filter_status (l : List Feedback)
    (h : ∀ r ∈ l, r.status ∈ statusEnum) :
    (l.filter (fun f => f.status == "pending")).length +
      (l.filter (fun f => f.status == "reviewed")).length +
      (l.filter (fun f => f.status == "resolved")).length = l.length := by
  induction l with
  | nil => rfl
  | cons r rs ih =>
    have hr := h r (by simp)
    have ih' := ih (fun x hx => h x (List.mem_cons_of_mem _ hx))
    simp only [statusEnum, List.mem_cons, List.not_mem_nil, or_false] at hr
    rcases hr with h1 | h1 | h1 <;>
      simp [List.filter_cons, h1] <;> omega

lemma length_filter_type (l : List Feedback)
    (h : ∀ r ∈ l, r.type ∈ typeEnum) :
    (l.filter (fun f => f.type == "bug")).length +
      (l.filter (fun f => f.type == "feature")).length +
      (l.filter (fun f => f.type == "improvement")).length +
      (l.filter (fun f => f.type == "other")).length = l.length := by
  induction l with
  | nil => rfl
  | cons r rs ih =>
    have hr := h r (by simp)
    have ih' := ih (fun x hx => h x (List.mem_cons_of_mem _ hx))
    simp only [typeEnum, List.mem_cons, List.not_mem_nil, or_false] at hr
    rcases hr with h1 | h1 | h1 | h1 <;>
      simp [List.filter_cons, h1] <;> omega

lemma length_filter_priority (l : List Feedback)
    (h : ∀ r ∈ l, r.priority ∈ priorityEnum) :
    (l.filter (fun f => f.priority == "low")).length +
      (l.filter (fun f => f.priority == "medium")).length +
      (l.filter (fun f => f.priority == "high")).length = l.length := by
  induction l with
  | nil => rfl
  | cons r rs ih =>
    have hr := h r (by simp)
    have ih' := ih (fun x hx => h x (List.mem_cons_of_mem _ hx))
    simp only [priorityEnum, List.mem_cons, List.not_mem_nil, or_false] at hr
    rcases hr with h1 | h1 | h1 <;>
      simp [List.filter_cons, h1] <;> omega

/-- C4 (amended): over any state reached by operations whose update bodies
keep the mutable keys inside their enums (the route itself does not check
this), `getFeedbackStats` satisfies the three sum properties:
`byStatus`, `byType` and `byPriority` each total to `total`. -/
theorem C4_stats_sums (s : ServerState) (h : ReachableGood s) :
    (getFeedbackStats s.records).byStatus.pending +
        (getFeedbackStats s.records).byStatus.reviewed +
        (getFeedbackStats s.records).byStatus.resolved =
      (getFeedbackStats s.records).total ∧
    (getFeedbackStats s.records).byType.bug +
        (getFeedbackStats s.records).byType.feature +
        (getFeedbackStats s.records).byType.improvement +
        (getFeedbackStats s.records).byType.other =
      (getFeedbackStats s.records).total ∧
    (getFeedbackStats s.records).byPriority.low +
        (getFeedbackStats s.records).byPriority.medium +
        (getFeedbackStats s.records).byPriority.high =
      (getFeedbackStats s.records).total := by
  have he := reachableGood_enumOk h
  exact ⟨length_filter_status _ (fun r hr => (he r hr).1),
    length_filter_type _ (fun r hr => (he r hr).2.1),
    length_filter_priority _ (fun r hr => (he r hr).2.2)⟩

/-- C4 (witness): the concrete good state `sGood`. -/
theorem C4_witness :
    ReachableGood sGood ∧
    (getFeedbackStats sGood.records).byStatus.pending +
        (getFeedbackStats sGood.records).byStatus.reviewed +
        (getFeedbackStats sGood.records).byStatus.resolved =
      (getFeedbackStats sGood.records).total :=
  ⟨sGood_reachableGood, (C4_stats_sums sGood sGood_reachableGood).1⟩

/-! ## C5: id generation and immutability -/

/-- Run a sequence of create requests (input plus instant), collecting the
ids assigned to the successfully created records. -/
def runCreates (s : ServerState) : List (CreateInput × Int) → List Nat
  | [] => []
  | (i, t) :: rest =>
    match postFeedback s i t with
    | (.created f, s') => f.id :: runCreates s' rest
    | (.invalid, s') => runCreates s' rest

lemma postFeedback_created {s : ServerState} {i : CreateInput} {now : Int}
    (hv : validateFeedback i = true) :
    postFeedback s i now =
      (.created (newFeedback s i now),
       { records := newFeedback s i now :: s.records, counter := s.counter + 1 }) := by
  simp [postFeedback, hv]

lemma runCreates_general (inputs : List (CreateInput × Int)) (s : ServerState)
    (h : ∀ p ∈ inputs, validateFeedback p.1 = true) :
    runCreates s inputs = List.range' s.counter inputs.length := by
  induction inputs generalizing s with
  | nil => rfl
  | cons p rest ih =>
    cases p with
    | mk i t =>
      have hv : validateFeedback i = true := h (i, t) (by simp)
      simp only [runCreates, postFeedback_created hv, List.length_cons,
        List.range'_succ]
      rw [ih _ (fun q hq => h q (List.mem_cons_of_mem _ hq))]
      rfl

lemma foldlUpdates_id (u : List (String × String)) (r : Feedback) :
    (u.foldl
      (fun acc kv =>
        if kv.1 = "status" then { acc with status := kv.2 }
        else if kv.1 = "priority" then { acc with priority := kv.2 }
        else acc) r).id = r.id := by
  induction u generalizing r with
  | nil => rfl
  | cons kv rest ih =>
    simp only [List.foldl_cons]
    rw [ih]
    by_cases h1 : kv.1 = "status"
    · simp [h1]
    · by_cases h2 : kv.1 = "priority" <;> simp [h1, h2]

lemma applyUpdates_id (r : Feedback) (u : List (String × String)) (now : Int) :
    (applyUpdates r u now).id = r.id := by
  simp only [applyUpdates]
  exact foldlUpdates_id u r

lemma updateRecords_map_id {id : Nat} {u : List (String × String)} {now : Int}
    {l : List Feedback} {f : Feedback} {l' : List Feedback}
    (h : updateRecords id u now l = some (f, l')) :
    l'.map (·.id) = l.map (·.id) := by
  induction l generalizing f l' with
  | nil => simp [updateRecords] at h
  | cons r rs ih =>
    by_cases hr : r.id = id
    · rw [updateRecords, if_pos hr] at h
      obtain ⟨rfl, rfl⟩ : f = applyUpdates r u now ∧ l' = applyUpdates r u now :: rs := by
        simpa [eq_comm] using h
      simp [applyUpdates_id]
    · rw [updateRecords, if_neg hr] at h
      cases h' : updateRecords id u now rs with
      | none => rw [h'] at h; simp at h
      | some p =>
        obtain ⟨pf, pl⟩ := p
        rw [h'] at h
        obtain ⟨rfl, rfl⟩ : f = pf ∧ l' = r :: pl := by simpa [eq_comm] using h
        simp [ih h']

lemma removeRecord_none {id : Nat} {l : List Feedback}
    (h : removeRecord id l = none) : ∀ r ∈ l, r.id ≠ id := by
  induction l with
  | nil => simp
  | cons r rs ih =>
    by_cases hr : r.id = id
    · rw [removeRecord, if_pos hr] at h
      simp at h
    · rw [removeRecord, if_neg hr] at h
      cases h' : removeRecord id rs with
      | none =>
        intro x hx
        rcases List.mem_cons.mp hx with rfl | hx'
        · exact hr
        · exact ih h' x hx'
      | some p => rw [h'] at h; simp at h

lemma removeRecord_map_id {id : Nat} {l : List Feedback} {f : Feedback}
    {l' : List Feedback} (h : removeRecord id l = some (f, l')) :
    l'.map (·.id) = (l.map (·.id)).erase id := by
  induction l generalizing f l' with
  | nil => simp [removeRecord] at h
  | cons r rs ih =>
    by_cases hr : r.id = id
    · rw [removeRecord, if_pos hr] at h
      obtain ⟨rfl, rfl⟩ : f = r ∧ l' = rs := by simpa [eq_comm] using h
      simp [List.erase_cons, hr]
    · rw [removeRecord, if_neg hr] at h
      cases h' : removeRecord id rs with
      | none => rw [h'] at h; simp at h
      | some p =>
        obtain ⟨pf, pl⟩ := p
        rw [h'] at h
        obtain ⟨rfl, rfl⟩ : f = pf ∧ l' = r :: pl := by simpa [eq_comm] using h
        simp [List.erase_cons, hr, ih h']

/-- C5: (a) a run of validated creates from the fresh store assigns exactly
the ids `1, 2, …, N` in order — strictly increasing, no gaps, no repeats, the
k-th create receiving id k (the counter value, i.e. the previous maximum plus
one); (b) create only prepends (the new record carrying the counter value)
and never renumbers existing records; (c) update never changes any record's
id (the id sequence is positionally unchanged); (d) delete removes exactly
the first record with the target id and never renumbers the others. -/
theorem C5_id_generation :
    (∀ (inputs : List (CreateInput × Int)),
        (∀ p ∈ inputs, validateFeedback p.1 = true) →
        runCreates initState inputs = List.range' 1 inputs.length) ∧
    (∀ (s : ServerState) (i : CreateInput) (now : Int),
        (postFeedback s i now).2.records.map (·.id) = s.records.map (·.id) ∨
        (postFeedback s i now).2.records.map (·.id) =
          s.counter :: s.records.map (·.id)) ∧
    (∀ (s : ServerState) (id : Nat) (body : List (String × String)) (now : Int),
        (putFeedback s id body now).2.records.map (·.id) =
          s.records.map (·.id)) ∧
    (∀ (s : ServerState) (id : Nat),
        (deleteFeedback s id).2.records.map (·.id) =
          (s.records.map (·.id)).erase id) := by
  refine ⟨?_, ?_, ?_, ?_⟩
  · intro inputs h
    exact runCreates_general inputs initState h
  · intro s i now
    by_cases hv : validateFeedback i
    · right
      rw [postFeedback_created hv]
      rfl
    · left
      simp [postFeedback, hv]
  · intro s id body now
    rcases putFeedback_state s id body now with hsame | ⟨f, l', hupd, hst⟩
    · rw [hsame]
    · rw [hst]
      exact updateRecords_map_id hupd
  · intro s id
    simp only [deleteFeedback]
    cases h' : removeRecord id s.records with
    | none =>
      have hno : id ∉ s.records.map (·.id) := by
        intro hmem
        obtain ⟨r, hr, hid⟩ := List.mem_map.mp hmem
        exact removeRecord_none h' r hr hid
      rw [List.erase_of_not_mem hno]
    | some p =>
      obtain ⟨pf, pl⟩ := p
      simpa using removeRecord_map_id h'

/-- C5 (witness): two creates assign ids 1 and 2; a concrete update and a
concrete delete leave the remaining ids untouched. -/
theorem C5_witness :
    runCreates initState [(sampleInput, 100), (sampleInput, 200)] = [1, 2] ∧
    (putFeedback sGood 1 [("priority", "low")] 300).2.records.map (·.id) =
      sGood.records.map (·.id) ∧
    (deleteFeedback sGood 1).2.records.map (·.id) =
      (sGood.records.map (·.id)).erase 1 :=
  ⟨(C5_id_generation.1 [(sampleInput, 100), (sampleInput, 200)]
      (by decide)).trans (by decide),
   C5_id_generation.2.2.1 sGood 1 [("priority", "low")] 300,
   C5_id_generation.2.2.2 sGood 1⟩

/-! ## C9: most common type -/

lemma getMostCommonType_eq (l : List Feedback) :
    getMostCommonType l =
      (typeKeys l).foldl
        (fun a b => if countType l a > countType l b then a else b) "feature" := rfl

lemma foldlMax_le (cnt : String → Nat) (ks : List String) :
    ∀ a : String,
      cnt a ≤ cnt (ks.foldl (fun x b => if cnt x > cnt b then x else b) a) ∧
      ∀ t ∈ ks, cnt t ≤ cnt (ks.foldl (fun x b => if cnt x > cnt b then x else b) a) := by
  induction ks with
  | nil =>
    intro a
    exact ⟨le_refl _, by simp⟩
  | cons b ks ih =>
    intro a
    simp only [List.foldl_cons]
    have h1 : cnt a ≤ cnt (if cnt a > cnt b then a else b) := by
      by_cases h : cnt a > cnt b <;> simp [h] <;> omega
    have h2 : cnt b ≤ cnt (if cnt a > cnt b then a else b) := by
      by_cases h : cnt a > cnt b <;> simp [h] <;> omega
    obtain ⟨ih1, ih2⟩ := ih (if cnt a > cnt b then a else b)
    refine ⟨le_trans h1 ih1, ?_⟩
    intro t ht
    rcases List.mem_cons.mp ht with rfl | ht'
    · exact le_trans h2 ih1
    · exact ih2 t ht'

lemma foldlMax_last (cnt : String → Nat) (ks : List String) :
    ∀ a : String,
      (ks.foldl (fun x b => if cnt x > cnt b then x else b) a = a ∧
        ∀ t ∈ ks, cnt t < cnt a) ∨
      ∃ ks₁ ks₂,
        ks = ks₁ ++ (ks.foldl (fun x b => if cnt x > cnt b then x else b) a) :: ks₂ ∧
        ∀ t ∈ ks₂, cnt t < cnt (ks.foldl (fun x b => if cnt x > cnt b then x else b) a) := by
  induction ks with
  | nil =>
    intro a
    left
    exact ⟨rfl, by simp⟩
  | cons b ks ih =>
    intro a
    simp only [List.foldl_cons]
    by_cases h : cnt a > cnt b
    · rw [if_pos h]
      rcases ih a with ⟨heq, hall⟩ | ⟨ks₁, ks₂, hdec, hlt⟩
      · left
        refine ⟨heq, ?_⟩
        intro t ht
        rcases List.mem_cons.mp ht with rfl | ht'
        · exact h
        · exact hall t ht'
      · right
        exact ⟨b :: ks₁, ks₂, by rw [List.cons_append, ← hdec], hlt⟩
    · rw [if_neg h]
      rcases ih b with ⟨heq, hall⟩ | ⟨ks₁, ks₂, hdec, hlt⟩
      · right
        refine ⟨[], ks, ?_, ?_⟩
        · rw [heq, List.nil_append]
        · intro t ht
          rw [heq]
          exact hall t ht
      · right
        exact ⟨b :: ks₁, ks₂, by rw [List.cons_append, ← hdec], hlt⟩

lemma mem_of_containsStr {l : List String} {a : String}
    (h : l.contains a = true) : a ∈ l := by
  simpa using h

lemma mem_foldlKeys (l : List Feedback) :
    ∀ (acc : List String) (x : String), x ∈ acc →
      x ∈ l.foldl
        (fun acc r => if acc.contains r.type then acc else acc ++ [r.type]) acc := by
  induction l with
  | nil => intro acc x hx; exact hx
  | cons r rs ih =>
    intro acc x hx
    simp only [List.foldl_cons]
    by_cases hc : acc.contains r.type
    · rw [if_pos hc]
      exact ih acc x hx
    · rw [if_neg hc]
      exact ih _ x (List.mem_append_left _ hx)

lemma type_mem_typeKeys {l : List Feedback} {r : Feedback} (hr : r ∈ l) :
    r.type ∈ typeKeys l := by
  have aux : ∀ (l : List Feedback) (acc : List String) (r : Feedback), r ∈ l →
      r.type ∈ l.foldl
        (fun acc x => if acc.contains x.type then acc else acc ++ [x.type]) acc := by
    intro l
    induction l with
    | nil => intro acc r hr; simp at hr
    | cons x xs ih =>
      intro acc r hr
      simp only [List.foldl_cons]
      rcases List.mem_cons.mp hr with rfl | hr'
      · by_cases hc : acc.contains r.type
        · rw [if_pos hc]
          exact mem_foldlKeys xs acc r.type (mem_of_containsStr hc)
        · rw [if_neg hc]
          exact mem_foldlKeys xs _ r.type (List.mem_append_right _ (by simp))
      · exact ih _ r hr'
  exact aux l [] r hr

lemma mem_typeKeys_exists {l : List Feedback} {t : String}
    (ht : t ∈ typeKeys l) : ∃ r ∈ l, r.type = t := by
  have aux : ∀ (l : List Feedback) (acc : List String) (t : String),
      t ∈ l.foldl
        (fun acc x => if acc.contains x.type then acc else acc ++ [x.type]) acc →
      t ∈ acc ∨ ∃ r ∈ l, r.type = t := by
    intro l
    induction l with
    | nil => intro acc t h; exact Or.inl h
    | cons x xs ih =>
      intro acc t h
      simp only [List.foldl_cons] at h
      by_cases hc : acc.contains x.type
      · rw [if_pos hc] at h
        rcases ih acc t h with hacc | ⟨r, hr, hrt⟩
        · exact Or.inl hacc
        · exact Or.inr ⟨r, List.mem_cons_of_mem _ hr, hrt⟩
      · rw [if_neg hc] at h
        rcases ih _ t h with hacc | ⟨r, hr, hrt⟩
        · rcases List.mem_append.mp hacc with h1 | h1
          · exact Or.inl h1
          · exact Or.inr ⟨x, by simp, by simpa [eq_comm] using h1⟩
        · exact Or.inr ⟨r, List.mem_cons_of_mem _ hr, hrt⟩
  rcases aux l [] t ht with h | h
  · simp at h
  · exact h

lemma countType_pos {l : List Feedback} {t : String}
    (h : ∃ r ∈ l, r.type = t) : 0 < countType l t := by
  obtain ⟨r, hr, rfl⟩ := h
  have hm : r ∈ l.filter (fun x => x.type == r.type) :=
    List.mem_filter.mpr ⟨hr, by simp⟩
  exact List.length_pos.mpr (List.ne_nil_of_mem hm)

lemma exists_of_countType_pos {l : List Feedback} {t : String}
    (h : 0 < countType l t) : ∃ r ∈ l, r.type = t := by
  obtain ⟨r, hr⟩ :=
    List.exists_mem_of_ne_nil _ (List.length_pos.mp h)
  have hm := List.mem_filter.mp hr
  exact ⟨r, hm.1, by simpa using hm.2⟩

/-- C9 (amended): `getMostCommonType` returns `feature` on the empty store;
on a nonempty store it returns a type present in the store attaining the
maximum record count, and ties among equal counts are broken in favour of the
*last*-encountered type in the enumeration order of `typeCounts` (first
occurrence order in the store array): every key listed after the result has a
strictly smaller count. -/
theorem C9_most_common_type (l : List Feedback) :
    (l = [] → getMostCommonType l = "feature") ∧
    (l ≠ [] →
      getMostCommonType l ∈ typeKeys l ∧
      (∀ t ∈ typeKeys l, countType l t ≤ countType l (getMostCommonType l)) ∧
      ∃ ks₁ ks₂, typeKeys l = ks₁ ++ getMostCommonType l :: ks₂ ∧
        ∀ t ∈ ks₂, countType l t < countType l (getMostCommonType l)) := by
  constructor
  · rintro rfl
    rfl
  · intro hne
    have hmax := (foldlMax_le (countType l) (typeKeys l) "feature").2
    have hlast := foldlMax_last (countType l) (typeKeys l) "feature"
    rw [getMostCommonType_eq]
    rcases hlast with ⟨heq, hall⟩ | ⟨ks₁, ks₂, hdec, hlt⟩
    · have hf : 0 < countType l "feature" := by
        obtain ⟨r, hr⟩ := List.exists_mem_of_ne_nil l hne
        have hk : r.type ∈ typeKeys l := type_mem_typeKeys hr
        have hpos : 0 < countType l r.type := countType_pos ⟨r, hr, rfl⟩
        have := hall r.type hk
        omega
      have hfmem : "feature" ∈ typeKeys l := by
        obtain ⟨r, hr, hrt⟩ := exists_of_countType_pos hf
        exact hrt ▸ type_mem_typeKeys hr
      rw [heq]
      refine ⟨hfmem, ?_, ?_⟩
      · intro t ht
        exact le_of_lt (hall t ht)
      · obtain ⟨ks₁, ks₂, hdec⟩ := List.append_of_mem hfmem
        refine ⟨ks₁, ks₂, hdec, ?_⟩
        intro t ht
        exact hall t (by rw [hdec]; exact List.mem_append_right _ (List.mem_cons_of_mem _ ht))
    · refine ⟨?_, hmax, ks₁, ks₂, hdec, hlt⟩
      set m := (typeKeys l).foldl
        (fun x b => if countType l x > countType l b then x else b) "feature" with hm
      rw [hdec]
      exact List.mem_append_right _ (List.mem_cons_self _ _)

/-- C9 (witness): the empty store and the tied two-type store. -/
theorem C9_witness :
    getMostCommonType ([] : List Feedback) = "feature" ∧
    getMostCommonType [rBug, rImpr] ∈ typeKeys [rBug, rImpr] ∧
    ∀ t ∈ typeKeys [rBug, rImpr],
      countType [rBug, rImpr] t ≤
        countType [rBug, rImpr] (getMostCommonType [rBug, rImpr]) :=
  ⟨(C9_most_common_type []).1 rfl,
   ((C9_most_common_type [rBug, rImpr]).2 (by decide)).1,
   ((C9_most_common_type [rBug, rImpr]).2 (by decide)).2.1⟩

/-! ## C1: sorting -/

lemma fieldOf_createdAt (r : Feedback) : fieldOf "createdAt" r = .num r.createdAt := rfl

lemma sortCompare_asc_lt (a b : Feedback) (h : a.createdAt ≠ b.createdAt) :
    (sortCompare "createdAt" "asc" a b < 0 ↔ a.createdAt < b.createdAt) := by
  by_cases hbc : b.createdAt < a.createdAt <;>
    simp [sortCompare, fieldOf_createdAt, jsGt, hbc] <;> omega

lemma sortCompare_desc_lt (a b : Feedback) (h : a.createdAt ≠ b.createdAt) :
    (sortCompare "createdAt" "desc" a b < 0 ↔ -a.createdAt < -b.createdAt) := by
  by_cases hab : a.createdAt < b.createdAt <;>
    simp [sortCompare, fieldOf_createdAt, jsGt, hab] <;> omega

lemma jsInsert_sorted (cmp : α → α → Int) (k : α → Int)
    (hc : ∀ a b, k a ≠ k b → (cmp a b < 0 ↔ k a < k b))
    (x : α) (l : List α) (hx : ∀ y ∈ l, k x ≠ k y)
    (hl : l.Pairwise (fun u v => k u < k v)) :
    (jsInsert cmp x l).Pairwise (fun u v => k u < k v) := by
  induction l with
  | nil => simp [jsInsert]
  | cons y ys ih =>
    have hxy : k x ≠ k y := hx y (by simp)
    rcases List.pairwise_cons.mp hl with ⟨hy, hys⟩
    by_cases h : cmp x y < 0
    · rw [jsInsert, if_pos h]
      have hxky : k x < k y := (hc x y hxy).mp h
      refine List.Pairwise.cons ?_ hl
      intro z hz
      rcases List.mem_cons.mp hz with rfl | hz'
      · exact hxky
      · exact lt_trans hxky (hy z hz')
    · rw [jsInsert, if_neg h]
      have h3 : ¬ k x < k y := fun hlt => h ((hc x y hxy).mpr hlt)
      have hykx : k y < k x := by omega
      refine List.Pairwise.cons ?_
        (ih (fun z hz => hx z (List.mem_cons_of_mem _ hz)) hys)
      intro z hz
      have hz2 := (jsInsert_perm cmp x ys).mem_iff.mp hz
      rcases List.mem_cons.mp hz2 with rfl | hz'
      · exact hykx
      · exact hy z hz'

lemma jsSortAux_sorted (cmp : α → α → Int) (k : α → Int)
    (hc : ∀ a b, k a ≠ k b → (cmp a b < 0 ↔ k a < k b)) :
    ∀ (l acc : List α),
      (l ++ acc).Pairwise (fun u v => k u ≠ k v) →
      acc.Pairwise (fun u v => k u < k v) →
      (l.foldl (fun a x => jsInsert cmp x a) acc).Pairwise (fun u v => k u < k v) := by
  intro l
  induction l with
  | nil =>
    intro acc _ hs
    simpa using hs
  | cons x xs ih =>
    intro acc hne hs
    simp only [List.foldl_cons]
    have hne0 : (x :: (xs ++ acc)).Pairwise (fun u v => k u ≠ k v) := by
      simpa using hne
    rcases List.pairwise_cons.mp hne0 with ⟨hxall, hrest⟩
    have hperm : List.Perm (xs ++ jsInsert cmp x acc) (x :: (xs ++ acc)) :=
      (List.Perm.append_left xs (jsInsert_perm cmp x acc)).trans List.perm_middle
    have hne1 : (xs ++ jsInsert cmp x acc).Pairwise (fun u v => k u ≠ k v) :=
      (hperm.pairwise_iff (fun h => Ne.symm h)).mpr hne0
    have hins : (jsInsert cmp x acc).Pairwise (fun u v => k u < k v) :=
      jsInsert_sorted cmp k hc x acc
        (fun y hy => hxall y (List.mem_append_right _ hy)) hs
    exact ih (jsInsert cmp x acc) hne1 hins

lemma jsSort_sorted (cmp : α → α → Int) (k : α → Int)
    (hc : ∀ a b, k a ≠ k b → (cmp a b < 0 ↔ k a < k b))
    (l : List α) (h : l.Pairwise (fun u v => k u ≠ k v)) :
    (jsSort cmp l).Pairwise (fun u v => k u < k v) := by
  apply jsSortAux_sorted cmp k hc l []
  · simpa using h
  · simp

/-- C1 (amended): when all `createdAt` timestamps in the list are pairwise
distinct, sorting by `createdAt` ascending yields exactly the reverse of
sorting descending (each being the unique strictly sorted arrangement).  For
records with equal timestamps the comparator is not a consistent comparison
function (it returns -1 for both argument orders), so the relative order of
tied records is implementation-defined rather than preserved; the modelled
runtime sort in fact reverses tied pairs (see the counterexample). -/
theorem C1_sort_reversal (l : List Feedback)
    (hd : l.Pairwise (fun a b => a.createdAt ≠ b.createdAt)) :
    jsSort (sortCompare "createdAt" "asc") l =
      (jsSort (sortCompare "createdAt" "desc") l).reverse := by
  have hcasc : ∀ a b : Feedback, a.createdAt ≠ b.createdAt →
      (sortCompare "createdAt" "asc" a b < 0 ↔ a.createdAt < b.createdAt) :=
    sortCompare_asc_lt
  have hcdesc : ∀ a b : Feedback, -a.createdAt ≠ -b.createdAt →
      (sortCompare "createdAt" "desc" a b < 0 ↔ -a.createdAt < -b.createdAt) :=
    fun a b h => sortCompare_desc_lt a b (fun he => h (by rw [he]))
  have hd' : l.Pairwise (fun a b : Feedback => -a.createdAt ≠ -b.createdAt) :=
    hd.imp (fun h => by simpa using h)
  have hsorted_asc :
      (jsSort (sortCompare "createdAt" "asc") l).Pairwise
        (fun u v : Feedback => u.createdAt < v.createdAt) :=
    jsSort_sorted _ (fun r : Feedback => r.createdAt) hcasc l hd
  have hsorted_desc :
      (jsSort (sortCompare "createdAt" "desc") l).Pairwise
        (fun u v : Feedback => -u.createdAt < -v.createdAt) :=
    jsSort_sorted _ (fun r : Feedback => -r.createdAt) hcdesc l hd'
  have hsorted_rev :
      ((jsSort (sortCompare "createdAt" "desc") l).reverse).Pairwise
        (fun u v : Feedback => u.createdAt < v.createdAt) := by
    rw [List.pairwise_reverse]
    exact hsorted_desc.imp (fun h => by omega)
  have hperm : List.Perm (jsSort (sortCompare "createdAt" "asc") l)
      ((jsSort (sortCompare "createdAt" "desc") l).reverse) :=
    (jsSort_perm _ l).trans
      ((jsSort_perm (sortCompare "createdAt" "desc") l).symm.trans
        (List.reverse_perm _).symm)
  haveI : IsAntisymm Feedback (fun u v : Feedback => u.createdAt < v.createdAt) :=
    ⟨fun a b h1 h2 => absurd (h1.trans h2) (lt_irrefl _)⟩
  exact List.eq_of_perm_of_sorted hperm hsorted_asc hsorted_rev

/-- C1 (witness): two records with distinct timestamps. -/
theorem C1_witness :
    List.Pairwise (fun a b : Feedback => a.createdAt ≠ b.createdAt)
      [mkRec 1 "bug" "low" "pending" 100, mkRec 2 "bug" "low" "pending" 200] ∧
    jsSort (sortCompare "createdAt" "asc")
        [mkRec 1 "bug" "low" "pending" 100, mkRec 2 "bug" "low" "pending" 200] =
      (jsSort (sortCompare "createdAt" "desc")
        [mkRec 1 "bug" "low" "pending" 100, mkRec 2 "bug" "low" "pending" 200]).reverse :=
  ⟨by decide, C1_sort_reversal _ (by decide)⟩
